import Mathlib

/-!
# Verification of the lifecycle-scoped agent record registry

A shallow embedding of the repository's core (`src/types.ts`,
`src/storage/memory.ts`, `src/storage/file.ts`, `src/registry.ts`).

Modelling conventions:

* The persisted layer is modelled at the JSON-value level: a file on disk is
  either a well-formed JSON document (`FileContent.doc j`) or text that fails
  `JSON.parse` (`FileContent.corrupt`).  `JSON.stringify`/`JSON.parse` on the
  record object are modelled by `RegisteredAgent.toJson` / `RegisteredAgent.fromJson`.
* JavaScript `Map`s are association lists keyed by the same keys the code
  uses: `agentId` and the `name ++ ":" ++ scope` composite for the
  in-memory store.  Each durable file tree is an association list keyed by
  the file's path relative to its lifespan directory, as the list of path
  segments produced by Node's `path.join` — empty segments collapse and a
  `/` inside a scope or name nests further directories, so distinct
  (scope, name) pairs whose joined paths coincide alias the same file, and
  a record saved more than one directory level deep exists on disk but is
  invisible to the one-level `list` walk.  (`..`/`.` normalization is not
  modelled; no path in this development contains dot segments.)
* `process.env.CLAUDE_SESSION_ID` and `process.cwd()` are ambient inputs,
  passed explicitly as an `Env` value.  `randomUUID()` and `new Date()` are
  passed explicitly as strings.
* Strings are used for lifespans and models, as in the dynamic semantics of
  the TypeScript: truthiness tests (`!config.name`, `filter.scope && ...`)
  become emptiness tests on strings / `Option String`.
* Thrown exceptions become `Except` results paired with the (unchanged)
  state; `async` sequencing is plain sequencing (single caller).
-/

/-- A JSON value, the content of one persisted document.  Numbers are
modelled as integers (the only numeric field the code persists is the
integer `turnCount`). -/
inductive Json where
  | null : Json
  | bool (b : Bool) : Json
  | num (n : Int) : Json
  | str (s : String) : Json
  | arr (elems : List Json) : Json
  | obj (fields : List (String × Json)) : Json

/-- A registered agent record, from `RegisteredAgent` in `src/types.ts`.
`lifespan` and `model` are strings, as in the JSON wire format. -/
structure RegisteredAgent where
  agentId : String
  name : String
  lifespan : String
  scope : String
  model : String
  createdAt : String
  lastUsedAt : String
  turnCount : Nat
  metadata : List (String × Json)

/-- Field access on a parsed JSON object (JavaScript property lookup). -/
def getField : List (String × Json) → String → Option Json
  | [], _ => none
  | (k, v) :: rest, key => if k = key then some v else getField rest key

/-- `JSON.stringify(agent)` in `FileStorage.save`, at the value level: the
object literal built in `AgentRegistry.create` in field order. -/
def RegisteredAgent.toJson (a : RegisteredAgent) : Json :=
  .obj [("agentId", .str a.agentId), ("name", .str a.name),
        ("lifespan", .str a.lifespan), ("scope", .str a.scope),
        ("model", .str a.model), ("createdAt", .str a.createdAt),
        ("lastUsedAt", .str a.lastUsedAt), ("turnCount", .num a.turnCount),
        ("metadata", .obj a.metadata)]

/-- `JSON.parse(content) as RegisteredAgent` in `FileStorage`: recovering the
typed record from a parsed document.  Documents not shaped like a record
(never produced by `save`) decode to `none`. -/
def RegisteredAgent.fromJson (j : Json) : Option RegisteredAgent :=
  match j with
  | .obj fields =>
    match getField fields "agentId", getField fields "name",
          getField fields "lifespan", getField fields "scope",
          getField fields "model", getField fields "createdAt",
          getField fields "lastUsedAt", getField fields "turnCount",
          getField fields "metadata" with
    | some (.str agentId), some (.str name), some (.str lifespan),
      some (.str scope), some (.str model), some (.str createdAt),
      some (.str lastUsedAt), some (.num tc), some (.obj metadata) =>
        if 0 ≤ tc then
          some ⟨agentId, name, lifespan, scope, model, createdAt,
                lastUsedAt, tc.toNat, metadata⟩
        else none
    | _, _, _, _, _, _, _, _, _ => none
  | _ => none

theorem fromJson_toJson (a : RegisteredAgent) :
    RegisteredAgent.fromJson a.toJson = some a := by
  cases a
  simp [RegisteredAgent.toJson, RegisteredAgent.fromJson, getField]

/-- `AgentFilter` from `src/types.ts`: all three fields optional. -/
structure AgentFilter where
  lifespan : Option String
  scope : Option String
  name : Option String

/-- One clause of `matchesFilter`: `filter.f && agent.f !== filter.f`.
JavaScript truthiness makes a present-but-empty string behave as absent. -/
def fieldBlocks (fv : Option String) (av : String) : Bool :=
  match fv with
  | none => false
  | some s => !(s == "") && !(av == s)

/-- `matchesFilter`, textually identical in `FileStorage` and
`MemoryStorage` (modelled once). -/
def matchesFilter (a : RegisteredAgent) (f : AgentFilter) : Bool :=
  if fieldBlocks f.lifespan a.lifespan then false
  else if fieldBlocks f.scope a.scope then false
  else if fieldBlocks f.name a.name then false
  else true

/-- The optional filter of `list(filter?)`: `!filter || matchesFilter(...)`. -/
def filterPass (a : RegisteredAgent) : Option AgentFilter → Bool
  | none => true
  | some f => matchesFilter a f

/-! ## Association-list maps

JavaScript `Map`s (insertion-ordered, unique keys) and flat directory
listings are modelled as association lists.  `set` replaces in place or
appends, `del` filters the key out, `get` returns the first (= unique)
binding. -/

def MapL.get {κ α : Type} [DecidableEq κ] : List (κ × α) → κ → Option α
  | [], _ => none
  | (k, v) :: rest, key => if k = key then some v else MapL.get rest key

def MapL.set {κ α : Type} [DecidableEq κ] : List (κ × α) → κ → α → List (κ × α)
  | [], key, v => [(key, v)]
  | (k, w) :: rest, key, v =>
      if k = key then (key, v) :: rest else (k, w) :: MapL.set rest key v

/-- In-memory backend: `agents : Map<agentId, record>` and
`nameIndex : Map<"name:scope", agentId>`. -/
structure MemoryStorage where
  agents : List (String × RegisteredAgent)
  nameIndex : List (String × String)

/-- `getNameKey`: the composite secondary key. -/
def getNameKey (name scope : String) : String :=
  name ++ ":" ++ scope

def MemoryStorage.save (m : MemoryStorage) (a : RegisteredAgent) : MemoryStorage :=
  { agents := MapL.set m.agents a.agentId a,
    nameIndex := MapL.set m.nameIndex (getNameKey a.name a.scope) a.agentId }

def MemoryStorage.load (m : MemoryStorage) (agentId : String) :
    Option RegisteredAgent :=
  MapL.get m.agents agentId

/-- `findByNameAndScope`: index probe; `if (!agentId)` is a JS falsiness
test, so an empty-string id is treated as a miss. -/
def MemoryStorage.findByNameAndScope (m : MemoryStorage) (name scope : String) :
    Option RegisteredAgent :=
  match MapL.get m.nameIndex (getNameKey name scope) with
  | none => none
  | some agentId => if agentId = "" then none else MapL.get m.agents agentId

def MemoryStorage.list (m : MemoryStorage) (f? : Option AgentFilter) :
    List RegisteredAgent :=
  (m.agents.map Prod.snd).filter (fun a => filterPass a f?)

/-! ## FileStorage (`src/storage/file.ts`)

One instance per durable lifespan.  A file is addressed by the string
`join(basePath, lifespan, scope, name + ".json")` (no scope component for
the project tier); relative to the lifespan directory that is the list of
non-empty `/`-separated segments of the scope followed by those of
`name + ".json"`.  `list` walks exactly one directory level: scope
directories and their direct `.json` entries for session/workflow, direct
`.json` entries for project — files nested deeper are never read by it. -/

/-- One persisted file: a document that `JSON.parse` accepts, or corrupt
text that it rejects (and `list`/`findByNameAndScope` silently skip). -/
inductive FileContent where
  | doc (j : Json) : FileContent
  | corrupt : FileContent

/-- The file tree of one `FileStorage` instance, keyed by relative path. -/
abbrev FileStorage (κ : Type) : Type := List (κ × FileContent)

/-- Split a char list at `'/'` (the behavior of `String.splitOn "/"`,
written structurally). -/
def splitOnSlash : List Char → List (List Char)
  | [] => [[]]
  | c :: rest =>
      if c = '/' then [] :: splitOnSlash rest
      else
        match splitOnSlash rest with
        | [] => [[c]]
        | seg :: segs => (c :: seg) :: segs

/-- The non-empty path segments of a string: Node's `path.join` drops
empty segments, so `join(.., "", p)` and `join(.., p)` coincide, as do
`"a//b"` and `"a/b"`. -/
def pathSegs (s : String) : List String :=
  ((splitOnSlash s.data).map (fun cs => String.mk cs)).filter
    (fun seg => seg ≠ "")

/-- `getAgentPath` for session/workflow: the segments of
`join(scope, name + ".json")`, built from the record's own fields. -/
def scopedKey (a : RegisteredAgent) : List String :=
  pathSegs a.scope ++ pathSegs (a.name ++ ".json")

/-- `getAgentPathByNameAndScope` for session/workflow. -/
def scopedPath (name scope : String) : List String :=
  pathSegs scope ++ pathSegs (name ++ ".json")

/-- `getAgentPath` for project: no scope component in the path. -/
def flatKey (a : RegisteredAgent) : List String :=
  pathSegs (a.name ++ ".json")

/-- `getAgentPathByNameAndScope` for project: the scope argument is unused. -/
def flatPath (name scope : String) : List String :=
  let _ := scope
  pathSegs (name ++ ".json")

/-- The `.json` filename filter of the `list` walk. -/
def isJsonName (f : String) : Bool :=
  f.data.reverse.take 5 == ".json".data.reverse

/-- Which relative paths the session/workflow `list` walk reads: it
descends into each scope directory and reads its direct entries ending in
`.json` — exactly the two-segment paths with a `.json` leaf.  (A deeper
entry is never visited; a directory named `*.json` fails the read and is
skipped like a corrupt file, and no such entry exists in this model, where
the store holds only files.) -/
def scopedVisible (k : List String) : Bool :=
  match k with
  | [_, f] => isJsonName f
  | _ => false

/-- Which relative paths the project `list` walk reads: the direct `.json`
entries of the lifespan directory — exactly the one-segment paths with a
`.json` leaf. -/
def flatVisible (k : List String) : Bool :=
  match k with
  | [f] => isJsonName f
  | _ => false

/-- `save`: write (create-or-overwrite) the JSON document at the record's
path (missing parent directories are created, which the path-keyed store
makes implicit). -/
def FileStorage.save {κ : Type} [DecidableEq κ] (keyOf : RegisteredAgent → κ)
    (fs : FileStorage κ) (a : RegisteredAgent) : FileStorage κ :=
  MapL.set fs (keyOf a) (.doc a.toJson)

/-- `findByNameAndScope`: compute the deterministic path, read the file if
it exists, return `null` if missing or unparseable.  This read is direct —
it is not restricted to the paths `list` can see. -/
def FileStorage.findByNameAndScope {κ : Type} [DecidableEq κ]
    (pathOf : String → String → κ) (fs : FileStorage κ) (name scope : String) :
    Option RegisteredAgent :=
  match MapL.get fs (pathOf name scope) with
  | none => none
  | some .corrupt => none
  | some (.doc j) => RegisteredAgent.fromJson j

/-- `list`: the one-level directory walk — read every file the walk can
see (`vis`), parse it, silently skip unparseable documents, apply the
optional filter.  Files at other depths are never read. -/
def FileStorage.list {κ : Type} (vis : κ → Bool) :
    FileStorage κ → Option AgentFilter → List RegisteredAgent
  | [], _ => []
  | (k, content) :: rest, f? =>
      if vis k then
        match content with
        | FileContent.corrupt => FileStorage.list vis rest f?
        | FileContent.doc j =>
          match RegisteredAgent.fromJson j with
          | none => FileStorage.list vis rest f?
          | some a =>
              if filterPass a f? then a :: FileStorage.list vis rest f?
              else FileStorage.list vis rest f?
      else FileStorage.list vis rest f?

/-- `load`: no index by id, so scan the full listing (and therefore only
records the walk can see). -/
def FileStorage.load {κ : Type} (vis : κ → Bool) (fs : FileStorage κ)
    (agentId : String) : Option RegisteredAgent :=
  (FileStorage.list vis fs none).find? (fun a => a.agentId == agentId)

/-- Ambient process state read by the registry: `process.env.CLAUDE_SESSION_ID`
(`none` models an unset variable) and `process.cwd()`. -/
structure Env where
  claudeSessionId : Option String
  cwd : String

/-- `AnyAgentConfig` at the dynamic level: the union of the config
interfaces of `src/types.ts`.  `lifespan = ""` models a missing lifespan and
`name = ""` a missing/empty name (the validator tests truthiness); the
lifespan-specific optional fields are `none` when absent. -/
structure Config where
  lifespan : String
  name : String
  model : Option String
  metadata : List (String × Json)
  sessionId : Option String
  workflowId : Option String
  workflowType : Option String
  projectPath : Option String

/-- The errors the registry throws: `InvalidConfigError` and
`AgentNotFoundError` from `src/types.ts`. -/
inductive RegError where
  | invalidConfig (msg : String) : RegError
  | agentNotFound (name : String) : RegError

/-- `CreateResult` from `src/types.ts`. -/
structure CreateResult where
  agent : RegisteredAgent
  isNew : Bool

/-- The registry's state: the shared volatile store and the three durable
`FileStorage` instances built by `createFileStorages`. -/
structure AgentRegistry where
  mem : MemoryStorage
  sessionFS : FileStorage (List String)
  workflowFS : FileStorage (List String)
  projectFS : FileStorage (List String)

/-- A fresh registry over an empty volatile store and an empty base
directory. -/
def AgentRegistry.init : AgentRegistry :=
  { mem := { agents := [], nameIndex := [] },
    sessionFS := [], workflowFS := [], projectFS := [] }

/-- Which backend `getStorage` selects for a lifespan string; `none` is the
`default` branch, which throws `InvalidConfigError`. -/
inductive StorageKind where
  | memK | sessionK | workflowK | projectK
deriving DecidableEq

def storageKind : String → Option StorageKind
  | "ephemeral" => some .memK
  | "turn" => some .memK
  | "context" => some .memK
  | "session" => some .sessionK
  | "workflow" => some .workflowK
  | "project" => some .projectK
  | _ => none

/-- `getScope`: scope derivation from the config and ambient environment.
For `workflow`, the code reads `config.workflowId` directly (after
validation it is a non-empty string; `getD ""` stands for the JS
`undefined` that could only flow out of an unvalidated call). -/
def AgentRegistry.getScope (c : Config) (env : Env) : String :=
  match c.lifespan with
  | "ephemeral" => "ephemeral"
  | "turn" => env.claudeSessionId.getD "turn"
  | "context" => env.claudeSessionId.getD "context"
  | "session" => c.sessionId.getD (env.claudeSessionId.getD "unknown-session")
  | "workflow" => c.workflowId.getD ""
  | "project" => c.projectPath.getD env.cwd
  | _ => "unknown"

/-- `getDefaultScope`: the per-tier default used by `resume` when no scope
argument is supplied.  Workflow has no default (empty string). -/
def AgentRegistry.getDefaultScope (lifespan : String) (env : Env) : String :=
  match lifespan with
  | "ephemeral" => "ephemeral"
  | "turn" => env.claudeSessionId.getD "turn"
  | "context" => env.claudeSessionId.getD "context"
  | "session" => env.claudeSessionId.getD "unknown-session"
  | "workflow" => ""
  | "project" => env.cwd
  | _ => "unknown"

/-- JS truthiness of an optional string. -/
def optTruthy : Option String → Bool
  | none => false
  | some s => !(s == "")

/-- `validateConfig`: name non-empty, lifespan present, and workflow
lifespan requires a truthy `workflowId`.  (An unrecognized lifespan passes
this check; it is `getStorage` that rejects it.) -/
def AgentRegistry.validateConfig (c : Config) : Except RegError Unit :=
  if c.name = "" then .error (.invalidConfig "Agent name is required")
  else if c.lifespan = "" then .error (.invalidConfig "Agent lifespan is required")
  else if c.lifespan = "workflow" && !(optTruthy c.workflowId) then
    .error (.invalidConfig "workflowId is required for workflow-scoped agents")
  else .ok ()

/-- `findByNameAndScope` on the backend `getStorage` selects. -/
def AgentRegistry.findIn (s : AgentRegistry) (k : StorageKind)
    (name scope : String) : Option RegisteredAgent :=
  match k with
  | .memK => s.mem.findByNameAndScope name scope
  | .sessionK => FileStorage.findByNameAndScope scopedPath s.sessionFS name scope
  | .workflowK => FileStorage.findByNameAndScope scopedPath s.workflowFS name scope
  | .projectK => FileStorage.findByNameAndScope flatPath s.projectFS name scope

/-- `save` on the backend `getStorage` selects. -/
def AgentRegistry.saveIn (s : AgentRegistry) (k : StorageKind)
    (a : RegisteredAgent) : AgentRegistry :=
  match k with
  | .memK => { s with mem := s.mem.save a }
  | .sessionK => { s with sessionFS := FileStorage.save scopedKey s.sessionFS a }
  | .workflowK => { s with workflowFS := FileStorage.save scopedKey s.workflowFS a }
  | .projectK => { s with projectFS := FileStorage.save flatKey s.projectFS a }

/-- The record literal built by `create` on the not-found branch, with
`randomUUID()` as `uuid` and `new Date().toISOString()` as `now`.  For
workflow configs the code then sets `metadata.workflowType`; assigning a JS
`undefined` (absent `workflowType`) leaves no persisted field and is
modelled as a no-op. -/
def AgentRegistry.newAgent (c : Config) (scope uuid now : String) :
    RegisteredAgent :=
  { agentId := uuid, name := c.name, lifespan := c.lifespan, scope := scope,
    model := c.model.getD "haiku", createdAt := now, lastUsedAt := now,
    turnCount := 0,
    metadata :=
      if c.lifespan = "workflow" then
        match c.workflowType with
        | some t => MapL.set c.metadata "workflowType" (.str t)
        | none => c.metadata
      else c.metadata }

/-- `AgentRegistry.create`: validate, resolve scope, select storage,
find-or-create.  Returns the thrown error or the `CreateResult`, paired
with the registry state after the call. -/
def AgentRegistry.create (s : AgentRegistry) (c : Config) (env : Env)
    (uuid now : String) : Except RegError CreateResult × AgentRegistry :=
  match AgentRegistry.validateConfig c with
  | .error e => (.error e, s)
  | .ok _ =>
    let scope := AgentRegistry.getScope c env
    match storageKind c.lifespan with
    | none => (.error (.invalidConfig ("Unknown lifespan: " ++ c.lifespan)), s)
    | some k =>
      match s.findIn k c.name scope with
      | some existing =>
          let updated := { existing with lastUsedAt := now }
          (.ok { agent := updated, isNew := false }, s.saveIn k updated)
      | none =>
          let agent := AgentRegistry.newAgent c scope uuid now
          (.ok { agent := agent, isNew := true }, s.saveIn k agent)

/-- `AgentRegistry.resume`: probe the tiers in the fixed order turn,
context, session, workflow, project; within each tier use the explicit
scope or that tier's default scope; first hit is touched
(`lastUsedAt`, `turnCount`), re-saved, and returned. -/
def AgentRegistry.resume (s : AgentRegistry) (name : String)
    (scope? : Option String) (env : Env) (now : String) :
    Except RegError RegisteredAgent × AgentRegistry :=
  match s.mem.findByNameAndScope name
      (scope?.getD (AgentRegistry.getDefaultScope "turn" env)) with
  | some a =>
      let u := { a with lastUsedAt := now, turnCount := a.turnCount + 1 }
      (.ok u, { s with mem := s.mem.save u })
  | none =>
  match s.mem.findByNameAndScope name
      (scope?.getD (AgentRegistry.getDefaultScope "context" env)) with
  | some a =>
      let u := { a with lastUsedAt := now, turnCount := a.turnCount + 1 }
      (.ok u, { s with mem := s.mem.save u })
  | none =>
  match FileStorage.findByNameAndScope scopedPath s.sessionFS name
      (scope?.getD (AgentRegistry.getDefaultScope "session" env)) with
  | some a =>
      let u := { a with lastUsedAt := now, turnCount := a.turnCount + 1 }
      (.ok u, { s with sessionFS := FileStorage.save scopedKey s.sessionFS u })
  | none =>
  match FileStorage.findByNameAndScope scopedPath s.workflowFS name
      (scope?.getD (AgentRegistry.getDefaultScope "workflow" env)) with
  | some a =>
      let u := { a with lastUsedAt := now, turnCount := a.turnCount + 1 }
      (.ok u, { s with workflowFS := FileStorage.save scopedKey s.workflowFS u })
  | none =>
  match FileStorage.findByNameAndScope flatPath s.projectFS name
      (scope?.getD (AgentRegistry.getDefaultScope "project" env)) with
  | some a =>
      let u := { a with lastUsedAt := now, turnCount := a.turnCount + 1 }
      (.ok u, { s with projectFS := FileStorage.save flatKey s.projectFS u })
  | none => (.error (.agentNotFound name), s)

/-- `AgentRegistry.get`: volatile store first, then each durable store in
construction order. -/
def AgentRegistry.get (s : AgentRegistry) (agentId : String) :
    Option RegisteredAgent :=
  match s.mem.load agentId with
  | some a => some a
  | none =>
  match FileStorage.load scopedVisible s.sessionFS agentId with
  | some a => some a
  | none =>
  match FileStorage.load scopedVisible s.workflowFS agentId with
  | some a => some a
  | none => FileStorage.load flatVisible s.projectFS agentId

/-- `AgentRegistry.list`: concatenation of all four backends' listings. -/
def AgentRegistry.list (s : AgentRegistry) (f? : Option AgentFilter) :
    List RegisteredAgent :=
  s.mem.list f? ++ FileStorage.list scopedVisible s.sessionFS f?
    ++ FileStorage.list scopedVisible s.workflowFS f?
    ++ FileStorage.list flatVisible s.projectFS f?

/-- `AgentRegistry.startWorkflow`: thin wrapper over `create` (the extra
logging has no storage effect). -/
def AgentRegistry.startWorkflow (s : AgentRegistry) (c : Config) (env : Env)
    (uuid now : String) : Except RegError CreateResult × AgentRegistry :=
  s.create c env uuid now

theorem MapL.get_set_self {κ α : Type} [DecidableEq κ] (m : List (κ × α))
    (k : κ) (v : α) : MapL.get (MapL.set m k v) k = some v := by
  induction m with
  | nil => simp [MapL.set, MapL.get]
  | cons p rest ih =>
      by_cases h : p.1 = k
      · simp [MapL.set, MapL.get, h]
      · simpa [MapL.set, MapL.get, h] using ih

theorem MapL.mem_set {κ α : Type} [DecidableEq κ] {m : List (κ × α)}
    {k : κ} {v : α} {p : κ × α} (hp : p ∈ MapL.set m k v) :
    p = (k, v) ∨ p ∈ m := by
  induction m with
  | nil => simpa [MapL.set] using hp
  | cons q rest ih =>
      by_cases h : q.1 = k
      · rcases (by simpa [MapL.set, h] using hp) with h1 | h1
        · exact Or.inl h1
        · exact Or.inr (List.mem_cons_of_mem _ h1)
      · rcases (by simpa [MapL.set, h] using hp) with h1 | h1
        · exact Or.inr (by simp [h1])
        · rcases ih h1 with h2 | h2
          · exact Or.inl h2
          · exact Or.inr (List.mem_cons_of_mem _ h2)

theorem MapL.keys_set_subset {κ α : Type} [DecidableEq κ] {m : List (κ × α)}
    {k x : κ} {v : α} (hx : x ∈ (MapL.set m k v).map Prod.fst) :
    x = k ∨ x ∈ m.map Prod.fst := by
  rcases List.mem_map.mp hx with ⟨p, hp, rfl⟩
  rcases MapL.mem_set hp with h | h
  · exact Or.inl (by simp [h])
  · exact Or.inr (List.mem_map_of_mem _ h)

theorem MapL.nodup_set {κ α : Type} [DecidableEq κ] {m : List (κ × α)}
    (h : (m.map Prod.fst).Nodup) (k : κ) (v : α) :
    ((MapL.set m k v).map Prod.fst).Nodup := by
  induction m with
  | nil => simp [MapL.set]
  | cons p rest ih =>
      rw [List.map_cons, List.nodup_cons] at h
      by_cases hk : p.1 = k
      · rw [MapL.set, if_pos hk, List.map_cons, List.nodup_cons]
        exact ⟨hk ▸ h.1, h.2⟩
      · rw [MapL.set, if_neg hk, List.map_cons, List.nodup_cons]
        refine ⟨fun hmem => ?_, ih h.2 ⟩
        rcases MapL.keys_set_subset hmem with h1 | h1
        · exact hk h1
        · exact h.1 h1

theorem MapL.get_mem {κ α : Type} [DecidableEq κ] {m : List (κ × α)} {k : κ}
    {v : α} (h : MapL.get m k = some v) : (k, v) ∈ m := by
  induction m with
  | nil => simp [MapL.get] at h
  | cons p rest ih =>
      by_cases hk : p.1 = k
      · rw [MapL.get, if_pos hk] at h
        exact (by cases p; cases h; simp [hk.symm] : (k, v) = p) ▸ List.mem_cons_self p rest
      · rw [MapL.get, if_neg hk] at h
        exact List.mem_cons_of_mem _ (ih h)

/-- After `save`, the record is findable by `(name, scope)` (the saved id
is a real UUID, in particular non-empty). -/
theorem MemoryStorage.find_save_self (m : MemoryStorage) (a : RegisteredAgent)
    (hid : a.agentId ≠ "") :
    (m.save a).findByNameAndScope a.name a.scope = some a := by
  unfold MemoryStorage.save MemoryStorage.findByNameAndScope
  rw [MapL.get_set_self]
  simp [hid, MapL.get_set_self]

/-- After `save`, the record is findable at its `(name, scope)` path in a
session/workflow storage: the probe joins the same segments the save did. -/
theorem FileStorage.find_save_scoped (fs : FileStorage (List String))
    (a : RegisteredAgent) :
    FileStorage.findByNameAndScope scopedPath (FileStorage.save scopedKey fs a)
      a.name a.scope = some a := by
  unfold FileStorage.findByNameAndScope FileStorage.save
  rw [show scopedPath a.name a.scope = scopedKey a from rfl, MapL.get_set_self]
  exact fromJson_toJson a

/-- After `save`, the record is findable at its `name` path in the project
storage. -/
theorem FileStorage.find_save_flat (fs : FileStorage (List String))
    (a : RegisteredAgent) :
    FileStorage.findByNameAndScope flatPath (FileStorage.save flatKey fs a)
      a.name a.scope = some a := by
  unfold FileStorage.findByNameAndScope FileStorage.save
  rw [show flatPath a.name a.scope = flatKey a from rfl, MapL.get_set_self]
  exact fromJson_toJson a

/-- `list` as a filterMap over the file tree: only files the walk can see
contribute. -/
theorem FileStorage.list_eq_filterMap {κ : Type} (vis : κ → Bool)
    (fs : FileStorage κ) (f? : Option AgentFilter) :
    FileStorage.list vis fs f? = fs.filterMap (fun e =>
      if vis e.1 then
        match e.2 with
        | .doc j =>
          match RegisteredAgent.fromJson j with
          | some a => if filterPass a f? then some a else none
          | none => none
        | .corrupt => none
      else none) := by
  induction fs with
  | nil => rfl
  | cons e rest ih =>
      obtain ⟨k, c⟩ := e
      by_cases hv : vis k
      · cases c with
        | corrupt => simpa [FileStorage.list, List.filterMap_cons, hv] using ih
        | doc j =>
            cases hj : RegisteredAgent.fromJson j with
            | none =>
                simpa [FileStorage.list, List.filterMap_cons, hv, hj] using ih
            | some b =>
                by_cases hp : filterPass b f? <;>
                  simp [FileStorage.list, List.filterMap_cons, hv, hj, hp, ih]
      · simpa [FileStorage.list, List.filterMap_cons, hv] using ih

/-- Membership in a listing: exactly the parse-able documents at paths the
one-level walk reads, passing the optional filter; corrupt files and files
nested at other depths contribute nothing, and the walk itself never fails
(it is a total function). -/
theorem FileStorage.mem_list_iff {κ : Type} (vis : κ → Bool)
    (fs : FileStorage κ) (f? : Option AgentFilter) (a : RegisteredAgent) :
    a ∈ FileStorage.list vis fs f? ↔
      ∃ k j, (k, FileContent.doc j) ∈ fs ∧ vis k = true
        ∧ RegisteredAgent.fromJson j = some a ∧ filterPass a f? = true := by
  rw [FileStorage.list_eq_filterMap, List.mem_filterMap]
  constructor
  · rintro ⟨⟨k, c⟩, hmem, he⟩
    by_cases hv : vis k
    · rw [if_pos hv] at he
      cases c with
      | corrupt => simp at he
      | doc j =>
          cases hj : RegisteredAgent.fromJson j with
          | none => simp [hj] at he
          | some b =>
              simp only [hj] at he
              by_cases hp : filterPass b f?
              · rw [if_pos hp] at he
                have hba := Option.some.inj he
                exact ⟨k, j, hmem, hv, by rw [hj, hba], hba ▸ hp⟩
              · simp [hp] at he
    · simp [hv] at he
  · rintro ⟨k, j, hmem, hv, hj, hp⟩
    exact ⟨(k, .doc j), hmem, by simp [hv, hj, hp]⟩

/-- The content invariant of one durable store: every parse-able document
sits at the path built from its own `scope`/`name` fields, and carries the
store's lifespan; paths are pairwise distinct (it is a file tree). -/
def FSInv {κ : Type} (keyOf : RegisteredAgent → κ) (tier : String)
    (fs : FileStorage κ) : Prop :=
  (∀ e ∈ fs, ∀ j a, e.2 = FileContent.doc j →
      RegisteredAgent.fromJson j = some a → e.1 = keyOf a ∧ a.lifespan = tier)
  ∧ (fs.map Prod.fst).Nodup

/-- The invariant of the volatile store: each binding keys a record by its
own id, only the three volatile lifespans occur, and ids are unique. -/
def MemInv (m : MemoryStorage) : Prop :=
  (∀ p ∈ m.agents, p.1 = p.2.agentId ∧
     (p.2.lifespan = "ephemeral" ∨ p.2.lifespan = "turn" ∨ p.2.lifespan = "context"))
  ∧ (m.agents.map Prod.fst).Nodup

/-- The registry invariant: every backend is well-formed for its tier. -/
def RegInv (s : AgentRegistry) : Prop :=
  MemInv s.mem
  ∧ FSInv scopedKey "session" s.sessionFS
  ∧ FSInv scopedKey "workflow" s.workflowFS
  ∧ FSInv flatKey "project" s.projectFS

theorem MemInv.save {m : MemoryStorage} (h : MemInv m) (a : RegisteredAgent)
    (hls : a.lifespan = "ephemeral" ∨ a.lifespan = "turn" ∨ a.lifespan = "context") :
    MemInv (m.save a) := by
  constructor
  · intro p hp
    rcases MapL.mem_set hp with h1 | h1
    · exact h1 ▸ ⟨rfl, hls⟩
    · exact h.1 p h1
  · exact MapL.nodup_set h.2 _ _

theorem FSInv.set_doc {κ : Type} [DecidableEq κ] {keyOf : RegisteredAgent → κ}
    {tier : String} {fs : FileStorage κ} (h : FSInv keyOf tier fs)
    (a : RegisteredAgent) (hls : a.lifespan = tier) :
    FSInv keyOf tier (MapL.set fs (keyOf a) (.doc a.toJson)) := by
  constructor
  · intro e he j b hdoc hb
    rcases MapL.mem_set he with h1 | h1
    · have hj : FileContent.doc a.toJson = FileContent.doc j := by
        have hd := hdoc
        rw [h1] at hd
        simpa using hd
      have hj' : j = a.toJson := (FileContent.doc.inj hj).symm
      have hab : b = a := by
        rw [hj', fromJson_toJson] at hb
        exact (Option.some.inj hb).symm
      subst hab
      exact ⟨by rw [h1], hls⟩
    · exact h.1 e h1 j b hdoc hb
  · exact MapL.nodup_set h.2 _ _

theorem storageKind_memK {ls : String} (h : storageKind ls = some .memK) :
    ls = "ephemeral" ∨ ls = "turn" ∨ ls = "context" := by
  unfold storageKind at h
  split at h <;> simp_all

theorem storageKind_sessionK {ls : String} (h : storageKind ls = some .sessionK) :
    ls = "session" := by
  unfold storageKind at h
  split at h <;> simp_all

theorem storageKind_workflowK {ls : String} (h : storageKind ls = some .workflowK) :
    ls = "workflow" := by
  unfold storageKind at h
  split at h <;> simp_all

theorem storageKind_projectK {ls : String} (h : storageKind ls = some .projectK) :
    ls = "project" := by
  unfold storageKind at h
  split at h <;> simp_all

/-- Provenance of a volatile find: the returned record is a value of the
primary map. -/
theorem MemoryStorage.mem_of_find {m : MemoryStorage} {n sc : String}
    {a : RegisteredAgent} (h : m.findByNameAndScope n sc = some a) :
    ∃ agentId, (agentId, a) ∈ m.agents := by
  unfold MemoryStorage.findByNameAndScope at h
  cases hg : MapL.get m.nameIndex (getNameKey n sc) with
  | none => rw [hg] at h; cases h
  | some agentId =>
      rw [hg] at h
      have h' : (if agentId = "" then none
          else MapL.get m.agents agentId) = some a := h
      by_cases hid : agentId = ""
      · rw [if_pos hid] at h'; cases h'
      · rw [if_neg hid] at h'
        exact ⟨agentId, MapL.get_mem h'⟩

/-- Provenance of a durable find: a document at the probed path parses to
the returned record. -/
theorem FileStorage.doc_of_find {κ : Type} [DecidableEq κ]
    {pathOf : String → String → κ} {fs : FileStorage κ} {n sc : String}
    {a : RegisteredAgent}
    (h : FileStorage.findByNameAndScope pathOf fs n sc = some a) :
    ∃ j, (pathOf n sc, FileContent.doc j) ∈ fs
      ∧ RegisteredAgent.fromJson j = some a := by
  unfold FileStorage.findByNameAndScope at h
  cases hg : MapL.get fs (pathOf n sc) with
  | none => rw [hg] at h; cases h
  | some c =>
      rw [hg] at h
      cases c with
      | corrupt => simp at h
      | doc j => exact ⟨j, MapL.get_mem hg, h⟩

/-! Unfolding lemmas for `create`. -/

theorem create_err_validate {s : AgentRegistry} {c : Config} {env : Env}
    {uuid now : String} {e : RegError}
    (hv : AgentRegistry.validateConfig c = .error e) :
    s.create c env uuid now = (.error e, s) := by
  unfold AgentRegistry.create
  rw [hv]

theorem create_err_kind {s : AgentRegistry} {c : Config} {env : Env}
    {uuid now : String} (hv : AgentRegistry.validateConfig c = .ok ())
    (hk : storageKind c.lifespan = none) :
    s.create c env uuid now
      = (.error (.invalidConfig ("Unknown lifespan: " ++ c.lifespan)), s) := by
  unfold AgentRegistry.create
  rw [hv, hk]

theorem create_ok_unfold {s : AgentRegistry} {c : Config} {env : Env}
    {uuid now : String} {k : StorageKind}
    (hv : AgentRegistry.validateConfig c = .ok ())
    (hk : storageKind c.lifespan = some k) :
    s.create c env uuid now =
      match s.findIn k c.name (AgentRegistry.getScope c env) with
      | some existing =>
          (.ok { agent := { existing with lastUsedAt := now }, isNew := false },
            s.saveIn k { existing with lastUsedAt := now })
      | none =>
          (.ok { agent := AgentRegistry.newAgent c (AgentRegistry.getScope c env) uuid now,
                 isNew := true },
            s.saveIn k (AgentRegistry.newAgent c (AgentRegistry.getScope c env) uuid now)) := by
  unfold AgentRegistry.create
  rw [hv, hk]

theorem RegInv.create {s : AgentRegistry} (h : RegInv s) (c : Config) (env : Env)
    (uuid now : String) : RegInv (s.create c env uuid now).2 := by
  cases hv : AgentRegistry.validateConfig c with
  | error e => rw [create_err_validate hv]; exact h
  | ok u =>
    cases u
    cases hk : storageKind c.lifespan with
    | none => rw [create_err_kind hv hk]; exact h
    | some k =>
      rw [create_ok_unfold hv hk]
      obtain ⟨hm, hsess, hwf, hproj⟩ := h
      cases k with
      | memK =>
        cases hf : s.findIn .memK c.name (AgentRegistry.getScope c env) with
        | some existing =>
            rcases MemoryStorage.mem_of_find
              (show s.mem.findByNameAndScope c.name (AgentRegistry.getScope c env)
                = some existing from hf) with ⟨id, hid⟩
            exact ⟨MemInv.save hm _ (hm.1 _ hid).2, hsess, hwf, hproj⟩
        | none =>
            exact ⟨MemInv.save hm _ (storageKind_memK hk), hsess, hwf, hproj⟩
      | sessionK =>
        cases hf : s.findIn .sessionK c.name (AgentRegistry.getScope c env) with
        | some existing =>
            rcases FileStorage.doc_of_find
              (show FileStorage.findByNameAndScope scopedPath s.sessionFS c.name
                (AgentRegistry.getScope c env) = some existing from hf) with ⟨j, hmem, hj⟩
            exact ⟨hm, FSInv.set_doc hsess _ (hsess.1 _ hmem j existing rfl hj).2,
                   hwf, hproj⟩
        | none =>
            exact ⟨hm, FSInv.set_doc hsess _ (storageKind_sessionK hk), hwf, hproj⟩
      | workflowK =>
        cases hf : s.findIn .workflowK c.name (AgentRegistry.getScope c env) with
        | some existing =>
            rcases FileStorage.doc_of_find
              (show FileStorage.findByNameAndScope scopedPath s.workflowFS c.name
                (AgentRegistry.getScope c env) = some existing from hf) with ⟨j, hmem, hj⟩
            exact ⟨hm, hsess, FSInv.set_doc hwf _ (hwf.1 _ hmem j existing rfl hj).2,
                   hproj⟩
        | none =>
            exact ⟨hm, hsess, FSInv.set_doc hwf _ (storageKind_workflowK hk), hproj⟩
      | projectK =>
        cases hf : s.findIn .projectK c.name (AgentRegistry.getScope c env) with
        | some existing =>
            rcases FileStorage.doc_of_find
              (show FileStorage.findByNameAndScope flatPath s.projectFS c.name
                (AgentRegistry.getScope c env) = some existing from hf) with ⟨j, hmem, hj⟩
            exact ⟨hm, hsess, hwf,
                   FSInv.set_doc hproj _ (hproj.1 _ hmem j existing rfl hj).2⟩
        | none =>
            exact ⟨hm, hsess, hwf, FSInv.set_doc hproj _ (storageKind_projectK hk)⟩

theorem RegInv.resume {s : AgentRegistry} (h : RegInv s) (name : String)
    (scope? : Option String) (env : Env) (now : String) :
    RegInv (s.resume name scope? env now).2 := by
  obtain ⟨hm, hsess, hwf, hproj⟩ := h
  unfold AgentRegistry.resume
  cases h1 : s.mem.findByNameAndScope name
      (scope?.getD (AgentRegistry.getDefaultScope "turn" env)) with
  | some a =>
      rcases MemoryStorage.mem_of_find h1 with ⟨id, hid⟩
      exact ⟨MemInv.save hm _ (hm.1 _ hid).2, hsess, hwf, hproj⟩
  | none =>
  cases h2 : s.mem.findByNameAndScope name
      (scope?.getD (AgentRegistry.getDefaultScope "context" env)) with
  | some a =>
      rcases MemoryStorage.mem_of_find h2 with ⟨id, hid⟩
      exact ⟨MemInv.save hm _ (hm.1 _ hid).2, hsess, hwf, hproj⟩
  | none =>
  cases h3 : FileStorage.findByNameAndScope scopedPath s.sessionFS name
      (scope?.getD (AgentRegistry.getDefaultScope "session" env)) with
  | some a =>
      rcases FileStorage.doc_of_find h3 with ⟨j, hmem, hj⟩
      exact ⟨hm, FSInv.set_doc hsess _ (hsess.1 _ hmem j a rfl hj).2, hwf, hproj⟩
  | none =>
  cases h4 : FileStorage.findByNameAndScope scopedPath s.workflowFS name
      (scope?.getD (AgentRegistry.getDefaultScope "workflow" env)) with
  | some a =>
      rcases FileStorage.doc_of_find h4 with ⟨j, hmem, hj⟩
      exact ⟨hm, hsess, FSInv.set_doc hwf _ (hwf.1 _ hmem j a rfl hj).2, hproj⟩
  | none =>
  cases h5 : FileStorage.findByNameAndScope flatPath s.projectFS name
      (scope?.getD (AgentRegistry.getDefaultScope "project" env)) with
  | some a =>
      rcases FileStorage.doc_of_find h5 with ⟨j, hmem, hj⟩
      exact ⟨hm, hsess, hwf, FSInv.set_doc hproj _ (hproj.1 _ hmem j a rfl hj).2⟩
  | none => exact ⟨hm, hsess, hwf, hproj⟩

theorem fieldBlocks_eq_false_iff (fv : Option String) (av : String) :
    fieldBlocks fv av = false ↔ ∀ v, fv = some v → v ≠ "" → av = v := by
  cases fv with
  | none => simp [fieldBlocks]
  | some s =>
      by_cases hs : s = "" <;> by_cases ha : av = s <;>
        simp [fieldBlocks, hs, ha]

theorem matchesFilter_eq_true_iff (a : RegisteredAgent) (f : AgentFilter) :
    matchesFilter a f = true ↔
      fieldBlocks f.lifespan a.lifespan = false
      ∧ fieldBlocks f.scope a.scope = false
      ∧ fieldBlocks f.name a.name = false := by
  unfold matchesFilter
  split_ifs with h1 h2 h3 <;> simp_all

/-- C4 (counterexample): a filter whose `scope` field is present with the
empty-string value does not constrain matching at all — here it accepts a
record whose scope is `"x"`, where the claim requires it to accept only
records whose scope is the empty string. -/
theorem c4_counterexample :
    matchesFilter
        { agentId := "u", name := "n", lifespan := "turn", scope := "x",
          model := "haiku", createdAt := "t", lastUsedAt := "t",
          turnCount := 0, metadata := [] }
        { lifespan := none, scope := some "", name := none } = true
      ∧ ("x" : String) ≠ "" := by
  exact ⟨rfl, by decide⟩

/-- C4 (amended): the match predicate shared by `list` and `deleteMany` in
both backends holds iff every field of the filter that is present *with a
non-empty value* equals the record's corresponding field (logical AND over
those fields); a field present with the empty-string value is ignored, as
JavaScript truthiness treats it like an absent field. -/
theorem c4_matchesFilter_characterization (a : RegisteredAgent) (f : AgentFilter) :
    matchesFilter a f = true ↔
      ((∀ v, f.lifespan = some v → v ≠ "" → a.lifespan = v)
       ∧ (∀ v, f.scope = some v → v ≠ "" → a.scope = v)
       ∧ (∀ v, f.name = some v → v ≠ "" → a.name = v)) := by
  rw [matchesFilter_eq_true_iff, fieldBlocks_eq_false_iff,
      fieldBlocks_eq_false_iff, fieldBlocks_eq_false_iff]

/-- C4 (witness): the characterization applied at a concrete record and a
concrete fully-specified filter. -/
theorem c4_witness :
    matchesFilter
        { agentId := "u", name := "n", lifespan := "turn", scope := "s1",
          model := "haiku", createdAt := "t", lastUsedAt := "t",
          turnCount := 0, metadata := [] }
        { lifespan := some "turn", scope := some "s1", name := some "n" } = true :=
  (c4_matchesFilter_characterization _ _).mpr
    (by refine ⟨?_, ?_, ?_⟩ <;> · intro v hv _; cases hv; rfl)

/-- C7: a durable listing returns exactly the records parsed from the
documents that `JSON.parse` accepts among the files its one-level walk
reads (the claim's domain: `.json` files directly inside a scope directory,
or directly inside the lifespan directory for the project tier), subject to
the optional filter; malformed files are silently skipped; the walk is a
total function, so no failure is raised.  Stated for both path shapes via
their visibility predicates. -/
theorem c7_list_skips_corrupt :
    (∀ (fs : FileStorage (List String)) (f? : Option AgentFilter)
       (a : RegisteredAgent),
      a ∈ FileStorage.list scopedVisible fs f? ↔
        ∃ k j, (k, FileContent.doc j) ∈ fs ∧ scopedVisible k = true
          ∧ RegisteredAgent.fromJson j = some a ∧ filterPass a f? = true)
    ∧ (∀ (fs : FileStorage (List String)) (f? : Option AgentFilter)
       (a : RegisteredAgent),
      a ∈ FileStorage.list flatVisible fs f? ↔
        ∃ k j, (k, FileContent.doc j) ∈ fs ∧ flatVisible k = true
          ∧ RegisteredAgent.fromJson j = some a ∧ filterPass a f? = true) :=
  ⟨fun fs f? a => FileStorage.mem_list_iff scopedVisible fs f? a,
   fun fs f? a => FileStorage.mem_list_iff flatVisible fs f? a⟩

/-- A concrete record used by the C7 witness scenario. -/
def c7Agent : RegisteredAgent :=
  { agentId := "u7", name := "good", lifespan := "session", scope := "S1",
    model := "haiku", createdAt := "t1", lastUsedAt := "t1", turnCount := 0,
    metadata := [] }

/-- C7 (witness): a scope directory holding one valid document and one
malformed file lists exactly the valid record. -/
theorem c7_witness :
    FileStorage.list scopedVisible
        [((["S1", "good.json"] : List String), FileContent.doc c7Agent.toJson),
         (["S1", "bad.json"], FileContent.corrupt)] none = [c7Agent]
      ∧ c7Agent ∈ FileStorage.list scopedVisible
        [((["S1", "good.json"] : List String), FileContent.doc c7Agent.toJson),
         (["S1", "bad.json"], FileContent.corrupt)] none := by
  constructor
  · rfl
  · exact (c7_list_skips_corrupt.1 _ _ _).mpr
      ⟨["S1", "good.json"], c7Agent.toJson, by simp, rfl, fromJson_toJson _, rfl⟩

/-- C9: on the durable backend, `save` followed by `findByNameAndScope`
with the saved record's `(name, scope)` returns a record equal to the saved
one in all fields, metadata included: the document written is the record's
JSON image, the probe joins the very same path segments the save did, and
decoding inverts encoding (`fromJson_toJson`).  Stated for both durable
path shapes. -/
theorem c9_save_find_roundtrip :
    (∀ (fs : FileStorage (List String)) (a : RegisteredAgent),
      FileStorage.findByNameAndScope scopedPath (FileStorage.save scopedKey fs a)
        a.name a.scope = some a)
    ∧ (∀ (fs : FileStorage (List String)) (a : RegisteredAgent),
      FileStorage.findByNameAndScope flatPath (FileStorage.save flatKey fs a)
        a.name a.scope = some a) :=
  ⟨FileStorage.find_save_scoped, FileStorage.find_save_flat⟩

/-- A record with nested metadata used by the C9 witness. -/
def c9Agent : RegisteredAgent :=
  { agentId := "u9", name := "n", lifespan := "session", scope := "sc",
    model := "sonnet", createdAt := "t1", lastUsedAt := "t2", turnCount := 3,
    metadata := [("k", .arr [.num 1, .obj [("z", .null), ("w", .bool true)]]),
                 ("s", .str "v")] }

/-- C9 (witness): the round trip at a concrete record carrying nested
metadata, on an initially empty store. -/
theorem c9_witness :
    FileStorage.findByNameAndScope scopedPath
      (FileStorage.save scopedKey ([] : FileStorage (List String)) c9Agent)
      "n" "sc" = some c9Agent :=
  c9_save_find_roundtrip.1 [] c9Agent

/-- C5: for a creation request with lifespan `turn` or `context`, the
resolved scope is the ambient session identifier (`CLAUDE_SESSION_ID`)
when it is present, and otherwise a literal fallback equal to the lifespan
name itself — `"turn"` for turn and `"context"` for context, distinct per
lifespan.  The config interfaces define no explicit scope override for
these two lifespans (`AgentConfig` has no scope/session field), so the
claim's override clause has nothing to fire on: `getScope` reads only the
environment for them. -/
theorem c5_scope_turn_context (c : Config) (env : Env)
    (h : c.lifespan = "turn" ∨ c.lifespan = "context") :
    AgentRegistry.getScope c env
      = (match env.claudeSessionId with
         | some sid => sid
         | none => c.lifespan) := by
  rcases h with h | h <;> simp only [AgentRegistry.getScope, h] <;>
    cases env.claudeSessionId <;> rfl

/-- Turn-lifespan config used by the C5 witness. -/
def c5TurnConfig : Config :=
  { lifespan := "turn", name := "n", model := none, metadata := [],
    sessionId := none, workflowId := none, workflowType := none,
    projectPath := none }

/-- Context-lifespan config used by the C5 witness. -/
def c5CtxConfig : Config :=
  { lifespan := "context", name := "n", model := none, metadata := [],
    sessionId := none, workflowId := none, workflowType := none,
    projectPath := none }

/-- C5 (witness): ambient id wins when present; the per-lifespan literal
is used when it is absent. -/
theorem c5_witness :
    AgentRegistry.getScope c5TurnConfig
        { claudeSessionId := some "sess-1", cwd := "/p" } = "sess-1"
      ∧ AgentRegistry.getScope c5CtxConfig
        { claudeSessionId := none, cwd := "/p" } = "context" :=
  ⟨c5_scope_turn_context c5TurnConfig _ (Or.inl rfl),
   c5_scope_turn_context c5CtxConfig _ (Or.inr rfl)⟩

/-- C6: a config with an empty name, a missing lifespan, an unrecognized
lifespan, or workflow lifespan without a truthy workflow id makes `create`
throw `InvalidConfigError` before any storage access: the call returns the
error and the registry state (all four backends) is exactly the state
before the call. -/
theorem c6_invalid_config_rejected (s : AgentRegistry) (c : Config) (env : Env)
    (uuid now : String)
    (h : c.name = "" ∨ c.lifespan = "" ∨ storageKind c.lifespan = none
         ∨ (c.lifespan = "workflow" ∧ optTruthy c.workflowId = false)) :
    (∃ msg, (s.create c env uuid now).1 = .error (.invalidConfig msg))
      ∧ (s.create c env uuid now).2 = s := by
  cases hv : AgentRegistry.validateConfig c with
  | error e =>
      have hmsg : ∃ msg, e = .invalidConfig msg := by
        unfold AgentRegistry.validateConfig at hv
        split_ifs at hv <;> exact ⟨_, (Except.error.inj hv).symm⟩
      rcases hmsg with ⟨msg, rfl⟩
      rw [create_err_validate hv]
      exact ⟨⟨msg, rfl⟩, rfl⟩
  | ok u =>
      cases u
      have hk : storageKind c.lifespan = none := by
        unfold AgentRegistry.validateConfig at hv
        split_ifs at hv with h1 h2 h3
        rcases h with h | h | h | h
        · exact absurd h h1
        · exact absurd h h2
        · exact h
        · exact absurd (by simp [h.1, h.2]) h3
      rw [create_err_kind hv hk]
      exact ⟨⟨_, rfl⟩, rfl⟩

/-- An invalid config (empty name) used by the C6 witness. -/
def c6BadConfig : Config :=
  { lifespan := "turn", name := "", model := none, metadata := [],
    sessionId := none, workflowId := none, workflowType := none,
    projectPath := none }

/-- C6 (witness): the rejection at a concrete empty-name config on the
fresh registry. -/
theorem c6_witness :
    (∃ msg, (AgentRegistry.init.create c6BadConfig
        { claudeSessionId := none, cwd := "/p" } "u" "t").1
      = .error (.invalidConfig msg))
    ∧ (AgentRegistry.init.create c6BadConfig
        { claudeSessionId := none, cwd := "/p" } "u" "t").2 = AgentRegistry.init :=
  c6_invalid_config_rejected AgentRegistry.init c6BadConfig _ "u" "t" (Or.inl rfl)

/-- `save` then `findByNameAndScope` with the record's own key succeeds on
whichever backend `getStorage` selected. -/
theorem findIn_saveIn_self (s : AgentRegistry) (k : StorageKind)
    (a : RegisteredAgent) (hu : a.agentId ≠ "") :
    (s.saveIn k a).findIn k a.name a.scope = some a := by
  cases k with
  | memK => exact MemoryStorage.find_save_self s.mem a hu
  | sessionK => exact FileStorage.find_save_scoped s.sessionFS a
  | workflowK => exact FileStorage.find_save_scoped s.workflowFS a
  | projectK => exact FileStorage.find_save_flat s.projectFS a

/-- Turn-lifespan config with the composite-ambiguous name `"a:b"`, used to
refute C1. -/
def c1ConfigAB : Config :=
  { lifespan := "turn", name := "a:b", model := none, metadata := [],
    sessionId := none, workflowId := none, workflowType := none,
    projectPath := none }

/-- Turn-lifespan config named `"a"`. -/
def c1ConfigA : Config :=
  { lifespan := "turn", name := "a", model := none, metadata := [],
    sessionId := none, workflowId := none, workflowType := none,
    projectPath := none }

/-- The volatile state holding the single record named `"a:b"` under scope
`"c"`. -/
def c1State : AgentRegistry :=
  (AgentRegistry.init.create c1ConfigAB
    { claudeSessionId := some "c", cwd := "/p" } "u1" "t1").2

/-- C1 (counterexample): in `c1State` no record with name `"a"` and scope
`"b:c"` exists in the volatile backend, yet the very first
`create({lifespan: turn, name: "a"})` under ambient session `"b:c"` returns
`isNew = false` — the `"name:scope"` composite index key `"a:b:c"` collides
with the stored record's key, so the claim's first call already fails to
return `isNew = true`. -/
theorem c1_counterexample :
    (∀ p ∈ c1State.mem.agents, ¬(p.2.name = "a" ∧ p.2.scope = "b:c"))
    ∧ ∃ r, (c1State.create c1ConfigA
        { claudeSessionId := some "b:c", cwd := "/p" } "u2" "t2").1
          = .ok r ∧ r.isNew = false ∧ r.agent.name = "a:b" := by
  exact ⟨by decide, ⟨_, rfl, rfl, rfl⟩⟩

/-- C1 (amended): the precondition "no record with the given name and
resolved scope exists in the selected backend" must be strengthened to "the
selected backend's `findByNameAndScope` probe returns nothing" — for the
volatile backend this is the `name ++ ":" ++ scope` composite-index probe,
which a record with a different name/scope pair can occupy when the
composite strings coincide.  Under that hypothesis (and the generated id
being non-empty, as a real UUID is), calling `create` twice in sequence
with the same config and ambient environment returns `isNew = true` then
`isNew = false`, and the second call returns the record stored by the
first (same `agentId`, `createdAt`, `turnCount`), with only `lastUsedAt`
refreshed. -/
theorem c1_create_idempotent (s : AgentRegistry) (c : Config) (env : Env)
    (u1 t1 u2 t2 : String) (k : StorageKind)
    (hv : AgentRegistry.validateConfig c = .ok ())
    (hk : storageKind c.lifespan = some k)
    (hfind : s.findIn k c.name (AgentRegistry.getScope c env) = none)
    (hu : u1 ≠ "") :
    ∃ a1,
      (s.create c env u1 t1).1 = .ok { agent := a1, isNew := true }
      ∧ a1.agentId = u1 ∧ a1.createdAt = t1 ∧ a1.turnCount = 0
      ∧ ((s.create c env u1 t1).2.create c env u2 t2).1
          = .ok { agent := { a1 with lastUsedAt := t2 }, isNew := false } := by
  refine ⟨AgentRegistry.newAgent c (AgentRegistry.getScope c env) u1 t1,
    ?_, rfl, rfl, rfl, ?_⟩
  · rw [create_ok_unfold hv hk, hfind]
  · have hs1 : (s.create c env u1 t1).2
        = s.saveIn k (AgentRegistry.newAgent c (AgentRegistry.getScope c env) u1 t1) := by
      rw [create_ok_unfold hv hk, hfind]
    have hfind2 : (s.saveIn k (AgentRegistry.newAgent c
          (AgentRegistry.getScope c env) u1 t1)).findIn k c.name
          (AgentRegistry.getScope c env)
        = some (AgentRegistry.newAgent c (AgentRegistry.getScope c env) u1 t1) :=
      findIn_saveIn_self s k _ hu
    rw [hs1, create_ok_unfold hv hk, hfind2]

/-- Turn-lifespan config used by the C1 witness. -/
def c1GoodConfig : Config :=
  { lifespan := "turn", name := "x", model := none, metadata := [],
    sessionId := none, workflowId := none, workflowType := none,
    projectPath := none }

/-- Environment used by the C1 witness. -/
def c1Env : Env := { claudeSessionId := some "S", cwd := "/p" }

/-- C1 (witness): the amended idempotence at a concrete turn config on the
fresh registry. -/
theorem c1_witness :
    AgentRegistry.validateConfig c1GoodConfig = .ok ()
    ∧ storageKind c1GoodConfig.lifespan = some .memK
    ∧ AgentRegistry.init.findIn .memK c1GoodConfig.name
        (AgentRegistry.getScope c1GoodConfig c1Env) = none
    ∧ ("u1" : String) ≠ ""
    ∧ ∃ a1, (AgentRegistry.init.create c1GoodConfig c1Env "u1" "t1").1
          = .ok { agent := a1, isNew := true }
        ∧ ((AgentRegistry.init.create c1GoodConfig c1Env "u1" "t1").2.create
            c1GoodConfig c1Env "u2" "t2").1
          = .ok { agent := { a1 with lastUsedAt := "t2" }, isNew := false } := by
  refine ⟨rfl, rfl, rfl, by decide, ?_⟩
  rcases c1_create_idempotent AgentRegistry.init c1GoodConfig c1Env
      "u1" "t1" "u2" "t2" .memK rfl rfl rfl (by decide) with
    ⟨a1, h1, _, _, _, h5⟩
  exact ⟨a1, h1, h5⟩

/-- An ephemeral-lifespan config of the given name. -/
def ephemeralConfig (n : String) : Config :=
  { lifespan := "ephemeral", name := n, model := none, metadata := [],
    sessionId := none, workflowId := none, workflowType := none,
    projectPath := none }

/-- C10: after `create({lifespan: ephemeral, name: n})` stores the record
under the constant scope `"ephemeral"` in the volatile table (shared by
the ephemeral, turn and context lifespans), `resume(n, "ephemeral")`
returns that very record — an `ephemeral`-lifespan record, though
`ephemeral` is not in resume's tier search order — because the first
(turn-tier) probe hits the volatile `findByNameAndScope`, which ignores
lifespans; the returned record has its `turnCount` incremented to 1. -/
theorem c10_resume_ephemeral (s : AgentRegistry) (n : String) (env env2 : Env)
    (u t1 t2 : String) (hn : n ≠ "") (hu : u ≠ "")
    (hfind : s.mem.findByNameAndScope n "ephemeral" = none) :
    ∃ a1,
      (s.create (ephemeralConfig n) env u t1).1 = .ok { agent := a1, isNew := true }
      ∧ a1.lifespan = "ephemeral" ∧ a1.scope = "ephemeral" ∧ a1.turnCount = 0
      ∧ ((s.create (ephemeralConfig n) env u t1).2.resume n
          (some "ephemeral") env2 t2).1
          = .ok { a1 with lastUsedAt := t2, turnCount := 1 } := by
  have hv : AgentRegistry.validateConfig (ephemeralConfig n) = .ok () := by
    unfold AgentRegistry.validateConfig ephemeralConfig
    simp [hn]
  have hk : storageKind (ephemeralConfig n).lifespan = some .memK := rfl
  have hfind1 : s.findIn .memK (ephemeralConfig n).name
      (AgentRegistry.getScope (ephemeralConfig n) env) = none := hfind
  refine ⟨AgentRegistry.newAgent (ephemeralConfig n)
      (AgentRegistry.getScope (ephemeralConfig n) env) u t1,
    ?_, rfl, rfl, rfl, ?_⟩
  · rw [create_ok_unfold hv hk, hfind1]
  · have hs1 : (s.create (ephemeralConfig n) env u t1).2
        = s.saveIn .memK (AgentRegistry.newAgent (ephemeralConfig n)
            (AgentRegistry.getScope (ephemeralConfig n) env) u t1) := by
      rw [create_ok_unfold hv hk, hfind1]
    have hfind2 : (s.saveIn .memK (AgentRegistry.newAgent (ephemeralConfig n)
          (AgentRegistry.getScope (ephemeralConfig n) env) u t1)).mem.findByNameAndScope
          n ((some "ephemeral").getD (AgentRegistry.getDefaultScope "turn" env2))
        = some (AgentRegistry.newAgent (ephemeralConfig n)
            (AgentRegistry.getScope (ephemeralConfig n) env) u t1) :=
      MemoryStorage.find_save_self s.mem _ hu
    rw [hs1]
    unfold AgentRegistry.resume
    rw [hfind2]
    rfl

/-- C10 (witness): the ephemeral create-then-scoped-resume at concrete
inputs on the fresh registry. -/
theorem c10_witness :
    ("ghost" : String) ≠ "" ∧ ("u9" : String) ≠ ""
    ∧ AgentRegistry.init.mem.findByNameAndScope "ghost" "ephemeral" = none
    ∧ ∃ a1,
      (AgentRegistry.init.create (ephemeralConfig "ghost")
          { claudeSessionId := none, cwd := "/p" } "u9" "t1").1
        = .ok { agent := a1, isNew := true }
      ∧ a1.lifespan = "ephemeral"
      ∧ ((AgentRegistry.init.create (ephemeralConfig "ghost")
          { claudeSessionId := none, cwd := "/p" } "u9" "t1").2.resume "ghost"
          (some "ephemeral") { claudeSessionId := none, cwd := "/p" } "t2").1
        = .ok { a1 with lastUsedAt := "t2", turnCount := 1 } := by
  refine ⟨by decide, by decide, rfl, ?_⟩
  rcases c10_resume_ephemeral AgentRegistry.init "ghost"
      { claudeSessionId := none, cwd := "/p" } { claudeSessionId := none, cwd := "/p" }
      "u9" "t1" "t2" (by decide) (by decide) rfl with ⟨a1, h1, h2, _, _, h5⟩
  exact ⟨a1, h1, h2, h5⟩

/-! Conversions between the scope-only filter and the scope predicate,
valid only for a non-empty scope value (the truthiness caveat of C4). -/

